import Mathlib

/-
Shallow embedding of the sharded buffer cache in kernel/bio.c (the
LAB_LOCK_2 variant, which is the configuration the specification
describes: NBUCKET hash buckets, a coarse pool lock for eviction, and a
timestamp-based LRU victim scan).

Modelling conventions:
  - The pool bcache.buf[NBUF] is a function bufs : Nat -> Buf together
    with a size nbuf.  The constant NBUF comes from kernel/param.h, which
    is not part of the sources here, so the pool size is a parameter.
  - The intrusive doubly linked bucket lists rooted at table[NBUCKET] are
    modelled as index lists table : Nat -> List Nat; the head insertion
    in bget (both branches of the empty and nonempty case write the same
    list) is cons, and the pointer unlink in brelse is removal of the
    first occurrence of the index from the list of the bucket that brelse
    locks, namely blockno mod NBUCKET.
  - The global clock ticks, incremented by the timer interrupt outside
    this file, is passed to each operation as an explicit argument.
  - Lock operations do not change the cache state; for the claims about
    lock ordering, a separate function bgetTrace records the sequence of
    lock events exactly in source order, and heldAfter replays the
    spinlock acquire and release events.
  - panic is modelled as the error branch of Except.
-/

def NBUCKET : Nat := 13

structure Buf where
  dev : Nat
  blockno : Nat
  valid : Bool
  refcnt : Nat
  timestamp : Nat
  data : Nat
deriving DecidableEq

/-- The all-zero buffer: the state of every slot after binit (the C
globals live in zeroed memory and binit only initializes locks). -/
def Buf0 : Buf := { dev := 0, blockno := 0, valid := false, refcnt := 0, timestamp := 0, data := 0 }

@[ext]
structure BCache where
  nbuf : Nat
  bufs : Nat → Buf
  table : Nat → List Nat

/-- State after binit: all slots zeroed, every bucket list empty
(each table head is a self loop). -/
def binit (n : Nat) : BCache := { nbuf := n, bufs := fun _ => Buf0, table := fun _ => [] }

def msgNoBuf : String := "bget: no buffers"

def msgBwrite : String := "bwrite"

def msgBrelse : String := "brelse"

def setBuf (st : BCache) (i : Nat) (b : Buf) : BCache :=
  { st with bufs := fun j => if j = i then b else st.bufs j }

/-- Fast path of bget (lines 106-115): under the bucket lock of
blockno mod NBUCKET, scan the bucket list for a slot with matching
blockno and dev; on a hit increment refcnt, set timestamp to ticks and
return the slot index. -/
def bgetLookup (dev blockno ticks : Nat) (st : BCache) : Option (BCache × Nat) :=
  match (st.table (blockno % NBUCKET)).find?
      (fun i => (st.bufs i).blockno == blockno && (st.bufs i).dev == dev) with
  | some i =>
      some (setBuf st i { st.bufs i with refcnt := (st.bufs i).refcnt + 1, timestamp := ticks }, i)
  | none => none

/-- One iteration of the victim scan loop (lines 123-129): the
accumulator carries the current lru candidate and the running timestamp
bound, initialized to the current ticks. -/
def scanStep (bufs : Nat → Buf) (acc : Option Nat × Nat) (i : Nat) : Option Nat × Nat :=
  if (bufs i).refcnt = 0 ∧ (bufs i).timestamp ≤ acc.2 then (some i, (bufs i).timestamp) else acc

/-- The victim scan after processing slots 0..n-1 in loop order. -/
def victimAux (ticks : Nat) (bufs : Nat → Buf) : Nat → Option Nat × Nat
  | 0 => (none, ticks)
  | n + 1 => scanStep bufs (victimAux ticks bufs n) n

/-- The lru pointer after the full scan of all nbuf slots
(lines 122-129). -/
def victimScan (ticks : Nat) (st : BCache) : Option Nat :=
  (victimAux ticks st.bufs st.nbuf).1

/-- Slow path of bget (lines 120-164): under the pool lock, scan for a
victim; if one exists, relabel it with the new identity, mark it
invalid, set refcnt to 1 and timestamp to ticks, and cons it onto the
target bucket list (both branches of lines 144-155 perform a head
insertion).  The victim is not removed from any bucket list here: a
slot with refcnt zero was unlinked by brelse.  Returns none when no
slot has refcnt zero, which the caller turns into the panic. -/
def bgetAdmit (dev blockno ticks : Nat) (st : BCache) : Option (BCache × Nat) :=
  match victimScan ticks st with
  | none => none
  | some lru =>
      let bk := blockno % NBUCKET
      let st1 := setBuf st lru
        { dev := dev, blockno := blockno, valid := false, refcnt := 1,
          timestamp := ticks, data := (st.bufs lru).data }
      some ({ st1 with table := fun j => if j = bk then lru :: st1.table bk else st1.table j }, lru)

/-- Whole bget: fast path, then admission, then panic when the pool is
exhausted. -/
def bget (dev blockno ticks : Nat) (st : BCache) : Except String (BCache × Nat) :=
  match bgetLookup dev blockno ticks st with
  | some r => .ok r
  | none =>
      match bgetAdmit dev blockno ticks st with
      | some r => .ok r
      | none => .error msgNoBuf

def removeFirst {α : Type} [DecidableEq α] (a : α) : List α → List α
  | [] => []
  | b :: l => if b = a then l else b :: removeFirst a l

/-- State change of brelse (lines 274-283): decrement refcnt under the
bucket lock of blockno mod NBUCKET, and when it reaches zero unlink the
slot from that bucket list.  The sleep lock discipline check is
modelled separately in brelseM. -/
def brelse (i : Nat) (st : BCache) : BCache :=
  let b := st.bufs i
  let b1 := { b with refcnt := b.refcnt - 1 }
  let st1 := setBuf st i b1
  if b1.refcnt = 0 then
    { st1 with table := fun j =>
        if j = b.blockno % NBUCKET then removeFirst i (st1.table j) else st1.table j }
  else st1

/-- bpin (lines 315-327): increment refcnt under the bucket lock. -/
def bpin (i : Nat) (st : BCache) : BCache :=
  setBuf st i { st.bufs i with refcnt := (st.bufs i).refcnt + 1 }

/-- bunpin (lines 329-341): decrement refcnt under the bucket lock.
No bucket list manipulation occurs. -/
def bunpin (i : Nat) (st : BCache) : BCache :=
  setBuf st i { st.bufs i with refcnt := (st.bufs i).refcnt - 1 }

/-- The validity-filling step of bread (lines 248-251), with the sleep
lock holder flag made explicit.  The source performs no holdingsleep
check on this path (bread relies on bget having acquired the lock), so
the flag is not consulted: the step never fails.  A true second
component records that a device read was issued. -/
def ensureValidM (holding : Bool) (disk : Nat → Nat → Nat) (b : Buf) :
    Except String (Buf × Bool) :=
  .ok (if b.valid then (b, false)
       else ({ b with data := disk b.dev b.blockno, valid := true }, true))

/-- bread (lines 242-253): bget, then fill the payload from the disk if
the slot is invalid. -/
def bread (dev blockno ticks : Nat) (disk : Nat → Nat → Nat) (st : BCache) :
    Except String (BCache × Nat × Bool) :=
  match bget dev blockno ticks st with
  | .error e => .error e
  | .ok (st1, i) =>
      match ensureValidM true disk (st1.bufs i) with
      | .error e => .error e
      | .ok (b1, io) => .ok (setBuf st1 i b1, i, io)

/-- bwrite (lines 256-262): panic when the sleep lock is not held by
the caller, otherwise write the payload through to the disk. -/
def bwriteM (holding : Bool) (disk : Nat → Nat → Nat) (b : Buf) :
    Except String (Nat → Nat → Nat) :=
  if holding then
    .ok (fun d bl => if d = b.dev ∧ bl = b.blockno then b.data else disk d bl)
  else .error msgBwrite

/-- brelse with its holdingsleep check (lines 269-270). -/
def brelseM (holding : Bool) (i : Nat) (st : BCache) : Except String BCache :=
  if holding then .ok (brelse i st) else .error msgBrelse

inductive Ev where
  | acqB : Nat → Ev
  | relB : Nat → Ev
  | acqPool : Ev
  | relPool : Ev
  | acqSleep : Nat → Ev
  | panicEv : String → Ev
deriving DecidableEq

inductive SpinL where
  | pool : SpinL
  | bucket : Nat → SpinL
deriving DecidableEq

def heldStep (h : List SpinL) : Ev → List SpinL
  | .acqB i => .bucket i :: h
  | .relB i => removeFirst (.bucket i) h
  | .acqPool => .pool :: h
  | .relPool => removeFirst .pool h
  | _ => h

/-- Spinlocks held after replaying a lock event sequence. -/
def heldAfter (evs : List Ev) : List SpinL := evs.foldl heldStep []

/-- The sequence of lock events bget performs, in source order
(lines 106-164 and the panic at line 238).  On the miss path with a
victim, the target bucket lock is taken at line 133, then the old
bucket of the victim at line 135 when it differs; releases happen at
lines 157-159, then the pool lock, then acquiresleep. -/
def bgetTrace (dev blockno ticks : Nat) (st : BCache) : List Ev :=
  let bk := blockno % NBUCKET
  match bgetLookup dev blockno ticks st with
  | some (_, i) => [.acqB bk, .relB bk, .acqSleep i]
  | none =>
      match victimScan ticks st with
      | some lru =>
          let old := (st.bufs lru).blockno % NBUCKET
          [.acqB bk, .relB bk, .acqPool, .acqB bk] ++
            (if old ≠ bk then [.acqB old] else []) ++
            (if old ≠ bk then [.relB old] else []) ++
            [.relB bk, .relPool, .acqSleep lru]
      | none => [.acqB bk, .relB bk, .acqPool, .relPool, .panicEv msgNoBuf]

/-- Total runner for bget, used to build concrete scenario states. -/
def bgetS (dev blockno ticks : Nat) (st : BCache) : BCache × Nat :=
  match bget dev blockno ticks st with
  | .ok r => r
  | .error _ => (st, 0)

/-- Total runner for the admission phase alone, used to build the
interleaved executions: the admission critical section runs on the
state left by another context, after this context already missed in
its own lookup critical section. -/
def admitS (dev blockno ticks : Nat) (st : BCache) : BCache :=
  match bgetAdmit dev blockno ticks st with
  | some r => r.1
  | none => st

/-- One acquire and release pair on block k at times k+1, for the
single threaded LRU scenario. -/
def pairStep (k : Nat) (st : BCache) : BCache :=
  let r := bgetS 0 k (k + 1) st
  brelse r.2 r.1

/-- Run k acquire and release pairs on the distinct blocks 0..k-1,
starting from the freshly initialized pool of size N. -/
def runPairs (N : Nat) : Nat → BCache
  | 0 => binit N
  | k + 1 => pairStep k (runPairs N k)

/-- Closed form of the state after k pairs: blocks 0..k-1 occupy slots
N-1 down to N-k, each with refcnt zero, timestamp equal to its acquire
time, and every bucket list empty again. -/
def pairState (N k : Nat) : BCache :=
  { nbuf := N
  , bufs := fun i =>
      if N - k ≤ i ∧ i < N then
        { dev := 0, blockno := N - 1 - i, valid := false, refcnt := 0,
          timestamp := N - i, data := 0 }
      else Buf0
  , table := fun _ => [] }

/-- First admission of the duplicate mapping interleaving: context one
admits block 5 of device 1 after both contexts missed on the initial
state. -/
def dupSt1 : BCache := admitS 1 5 10 (binit 2)

/-- Second admission of the interleaving: context two, whose lookup
already missed on the initial state, runs its admission on the state
left by context one. -/
def dupSt2 : BCache := admitS 1 5 11 dupSt1

/-- State holding block 5 with refcnt one, used by the bunpin
scenario. -/
def c3St1 : BCache := (bgetS 0 5 1 (binit 1)).1

/-- bpin, then brelse, then bunpin on that slot: refcnt returns to zero
through bunpin. -/
def c3St2 : BCache := bunpin 0 (brelse 0 (bpin 0 c3St1))

/-- A pool of size one whose only slot is held, for the exhaustion
scenario. -/
def fullSt : BCache :=
  { nbuf := 1, bufs := fun _ => { Buf0 with refcnt := 1 }, table := fun _ => [] }

/-- A pool of size two with both slots free at equal timestamps, for
the tie break scenario. -/
def tieSt : BCache := { nbuf := 2, bufs := fun _ => Buf0, table := fun _ => [] }

/-
Helper lemmas about the victim scan.  The scan processes slots in index
order with a running bound initialized to the current ticks; these
lemmas characterize its result: the returned slot has refcnt zero, its
timestamp is the final bound, the final bound is below every qualifying
timestamp, and no later slot ties or beats the returned one.
-/

theorem victimAux_spec (t : Nat) (bufs : Nat → Buf) (n : Nat) :
    (victimAux t bufs n).2 ≤ t ∧
    (∀ i, i < n → (bufs i).refcnt = 0 → (bufs i).timestamp ≤ t →
      (victimAux t bufs n).2 ≤ (bufs i).timestamp) ∧
    ((victimAux t bufs n).1 = none → (victimAux t bufs n).2 = t ∧
      ∀ i, i < n → (bufs i).refcnt = 0 → ¬ (bufs i).timestamp ≤ t) ∧
    (∀ j, (victimAux t bufs n).1 = some j → j < n ∧ (bufs j).refcnt = 0 ∧
      (bufs j).timestamp = (victimAux t bufs n).2 ∧
      ∀ m, j < m → m < n → (bufs m).refcnt = 0 →
        (victimAux t bufs n).2 < (bufs m).timestamp) := by
  induction n with
  | zero =>
      refine ⟨le_refl t, ?_, ?_, ?_⟩
      · intro i hi; omega
      · intro _; exact ⟨rfl, by intro i hi; omega⟩
      · intro j hj; simp [victimAux] at hj
  | succ n ih =>
      obtain ⟨ih1, ih2, ih3, ih4⟩ := ih
      by_cases h : (bufs n).refcnt = 0 ∧ (bufs n).timestamp ≤ (victimAux t bufs n).2
      · have hv : victimAux t bufs (n + 1) = (some n, (bufs n).timestamp) := by
          simp [victimAux, scanStep, h]
        rw [hv]
        refine ⟨le_trans h.2 ih1, ?_, ?_, ?_⟩
        · intro i hi h0 hts
          rcases Nat.lt_succ_iff_lt_or_eq.mp hi with hi2 | rfl
          · exact le_trans h.2 (ih2 i hi2 h0 hts)
          · exact le_refl _
        · intro hnone; simp at hnone
        · intro j hj
          simp only [Option.some.injEq] at hj
          subst hj
          exact ⟨Nat.lt_succ_self _, h.1, rfl, by intro m h1 h2 _; omega⟩
      · have hv : victimAux t bufs (n + 1) = victimAux t bufs n := by
          simp [victimAux, scanStep, h]
        rw [hv]
        refine ⟨ih1, ?_, ?_, ?_⟩
        · intro i hi h0 hts
          rcases Nat.lt_succ_iff_lt_or_eq.mp hi with hi2 | rfl
          · exact ih2 i hi2 h0 hts
          · have hgt : ¬ (bufs i).timestamp ≤ (victimAux t bufs i).2 :=
              fun hle => h ⟨h0, hle⟩
            omega
        · intro hnone
          obtain ⟨hbd, hall⟩ := ih3 hnone
          refine ⟨hbd, ?_⟩
          intro i hi h0
          rcases Nat.lt_succ_iff_lt_or_eq.mp hi with hi2 | rfl
          · exact hall i hi2 h0
          · intro hts
            exact h ⟨h0, by rw [hbd]; exact hts⟩
        · intro j hj
          obtain ⟨hjn, h0, hts, hlast⟩ := ih4 j hj
          refine ⟨Nat.lt_succ_of_lt hjn, h0, hts, ?_⟩
          intro m h1 h2 hm0
          rcases Nat.lt_succ_iff_lt_or_eq.mp h2 with h2m | rfl
          · exact hlast m h1 h2m hm0
          · have hgt : ¬ (bufs m).timestamp ≤ (victimAux t bufs m).2 :=
              fun hle => h ⟨hm0, hle⟩
            omega

theorem victimScan_refcnt (t : Nat) (st : BCache) (j : Nat)
    (h : victimScan t st = some j) : j < st.nbuf ∧ (st.bufs j).refcnt = 0 := by
  simp only [victimScan] at h
  obtain ⟨-, -, -, h4⟩ := victimAux_spec t st.bufs st.nbuf
  obtain ⟨h1, h2, -, -⟩ := h4 j h
  exact ⟨h1, h2⟩

theorem victimScan_none_of_full (t : Nat) (st : BCache)
    (h : ∀ i, i < st.nbuf → (st.bufs i).refcnt ≠ 0) : victimScan t st = none := by
  cases hv : victimScan t st with
  | none => rfl
  | some j =>
      obtain ⟨hj, h0⟩ := victimScan_refcnt t st j hv
      exact absurd h0 (h j hj)

theorem victimAux_eq_of (t : Nat) (bufs : Nat → Buf) (n j : Nat)
    (hj : j < n) (h0 : (bufs j).refcnt = 0) (hts : (bufs j).timestamp ≤ t)
    (hmin : ∀ i, i < n → (bufs i).refcnt = 0 → (bufs j).timestamp ≤ (bufs i).timestamp)
    (hlast : ∀ m, j < m → m < n → (bufs m).refcnt = 0 →
      (bufs j).timestamp < (bufs m).timestamp) :
    (victimAux t bufs n).1 = some j := by
  obtain ⟨h1, h2, h3, h4⟩ := victimAux_spec t bufs n
  cases hv : (victimAux t bufs n).1 with
  | none => exact absurd hts ((h3 hv).2 j hj h0)
  | some j2 =>
      obtain ⟨hj2, h02, hts2, hlast2⟩ := h4 j2 hv
      have hbd : (victimAux t bufs n).2 ≤ (bufs j).timestamp := h2 j hj h0 hts
      have hle : (bufs j).timestamp ≤ (bufs j2).timestamp := hmin j2 hj2 h02
      rcases Nat.lt_trichotomy j j2 with hlt | rfl | hgt
      · have := hlast j2 hlt hj2 h02
        omega
      · rfl
      · have := hlast2 j hgt hj h0
        omega

theorem victimScan_eq_of (t : Nat) (st : BCache) (j : Nat)
    (hj : j < st.nbuf) (h0 : (st.bufs j).refcnt = 0)
    (hts : (st.bufs j).timestamp ≤ t)
    (hmin : ∀ i, i < st.nbuf → (st.bufs i).refcnt = 0 →
      (st.bufs j).timestamp ≤ (st.bufs i).timestamp)
    (hlast : ∀ m, j < m → m < st.nbuf → (st.bufs m).refcnt = 0 →
      (st.bufs j).timestamp < (st.bufs m).timestamp) :
    victimScan t st = some j :=
  victimAux_eq_of t st.bufs st.nbuf j hj h0 hts hmin hlast

theorem pairState_bufs (N k i : Nat) :
    (pairState N k).bufs i =
      if N - k ≤ i ∧ i < N then
        { dev := 0, blockno := N - 1 - i, valid := false, refcnt := 0,
          timestamp := N - i, data := 0 }
      else Buf0 := rfl

theorem pairState_zero (N : Nat) : pairState N 0 = binit N := by
  apply BCache.ext
  · rfl
  · funext i
    rw [pairState_bufs, if_neg (by omega)]
    rfl
  · rfl

theorem pairState_victim (N k : Nat) (hk : k < N) :
    victimScan (k + 1) (pairState N k) = some (N - 1 - k) := by
  have hvb : (pairState N k).bufs (N - 1 - k) = Buf0 := by
    rw [pairState_bufs, if_neg (by omega)]
  apply victimScan_eq_of
  · show N - 1 - k < (pairState N k).nbuf
    have : (pairState N k).nbuf = N := rfl
    omega
  · rw [hvb]; rfl
  · rw [hvb]; exact Nat.zero_le _
  · intro i _ _
    rw [hvb]; exact Nat.zero_le _
  · intro m h1 h2 _
    rw [hvb]
    have h2n : m < N := h2
    rw [pairState_bufs, if_pos (by omega)]
    show 0 < N - m
    omega

theorem pairStep_state (N k : Nat) (hk : k < N) :
    pairStep k (pairState N k) = pairState N (k + 1) := by
  have hlook : bgetLookup 0 k (k + 1) (pairState N k) = none := rfl
  have hv : victimScan (k + 1) (pairState N k) = some (N - 1 - k) :=
    pairState_victim N k hk
  have hvb : (pairState N k).bufs (N - 1 - k) = Buf0 := by
    rw [pairState_bufs, if_neg (by omega)]
  unfold pairStep bgetS
  simp only [bget, bgetAdmit, hlook, hv, hvb, setBuf]
  unfold brelse
  simp only [setBuf, eq_self_iff_true, if_true, Buf0]
  apply BCache.ext
  · rfl
  · funext i
    dsimp only
    by_cases hi : i = N - 1 - k
    · subst hi
      rw [if_pos rfl, pairState_bufs,
        if_pos (by omega : N - (k + 1) ≤ N - 1 - k ∧ N - 1 - k < N)]
      have e1 : N - 1 - (N - 1 - k) = k := by omega
      have e2 : N - (N - 1 - k) = k + 1 := by omega
      rw [e1, e2]
    · rw [if_neg hi, if_neg hi, pairState_bufs, pairState_bufs]
      by_cases hc : N - (k + 1) ≤ i ∧ i < N
      · rw [if_pos (by omega : N - k ≤ i ∧ i < N), if_pos hc]
      · rw [if_neg (by omega : ¬ (N - k ≤ i ∧ i < N)), if_neg hc]
  · funext j
    dsimp only
    by_cases hj : j = k % NBUCKET
    · subst hj
      rw [if_pos rfl, if_pos rfl]
      simp [pairState, removeFirst]
    · rw [if_neg hj, if_neg hj]
      rfl

theorem runPairs_eq (N k : Nat) (hk : k ≤ N) : runPairs N k = pairState N k := by
  induction k with
  | zero => exact (pairState_zero N).symm
  | succ k ih =>
      have hkN : k < N := hk
      rw [runPairs, ih (Nat.le_of_lt hkN), pairStep_state N k hkN]

theorem setBuf_self (st : BCache) (i : Nat) : setBuf st i (st.bufs i) = st := by
  apply BCache.ext
  · rfl
  · funext j
    dsimp only [setBuf]
    by_cases hj : j = i
    · rw [if_pos hj, hj]
    · rw [if_neg hj]
  · rfl

theorem not_mem_removeFirst (a : Nat) (l : List Nat) (h : l.count a ≤ 1) :
    a ∉ removeFirst a l := by
  induction l with
  | nil => simp [removeFirst]
  | cons b l ih =>
      by_cases hb : b = a
      · subst hb
        rw [removeFirst, if_pos rfl]
        rw [List.count_cons_self] at h
        have h0 : l.count b = 0 := by omega
        exact List.count_eq_zero.mp h0
      · rw [removeFirst, if_neg hb]
        intro hmem
        rcases List.mem_cons.mp hmem with heq | hmem2
        · exact hb heq.symm
        · rw [List.count_cons_of_ne (Ne.symm hb)] at h
          exact ih h hmem2

/-- C1: the miss path of bget does not re-check the target shard after
acquiring the pool lock, so two contexts that both miss on the same
block in their fast-path critical sections and then run their admission
critical sections one after the other each admit the block, leaving two
distinct slots that both hold identity (1, 5) with refcnt one.  This
violates the no-duplicate-live-mapping invariant the specification
requires the engine to preserve. -/
theorem bget_race_duplicate_mapping :
    bgetLookup 1 5 10 (binit 2) = none ∧
    bgetLookup 1 5 11 (binit 2) = none ∧
    (dupSt2.bufs 0).dev = 1 ∧ (dupSt2.bufs 0).blockno = 5 ∧ 0 < (dupSt2.bufs 0).refcnt ∧
    (dupSt2.bufs 1).dev = 1 ∧ (dupSt2.bufs 1).blockno = 5 ∧ 0 < (dupSt2.bufs 1).refcnt ∧
    dupSt2.table 5 = [0, 1] :=
  ⟨rfl, rfl, rfl, rfl, by decide, rfl, rfl, by decide, rfl⟩

/-- C3 counterexample: acquire block 5 (slot 0 enters the bucket 5 list
with refcnt one), pin, release (refcnt back to one, still listed), then
unpin.  The unpin drops refcnt to zero but performs no unlink, so the
slot with refcnt zero is still on the bucket 5 list, contradicting the
claim that a slot is removed from its shard list the instant refcnt
reaches zero. -/
theorem bunpin_zero_still_listed :
    (c3St1.bufs 0).refcnt = 1 ∧ c3St1.table 5 = [0] ∧
    (c3St2.bufs 0).refcnt = 0 ∧ c3St2.table 5 = [0] :=
  ⟨rfl, rfl, rfl, rfl⟩

/-- C3 amended: only brelse unlinks: when brelse drops a slot refcnt
from one to zero it removes the slot from its bucket list (and hence,
if the slot was only ever in that list, from every list), while bunpin
never touches any bucket list, whatever refcnt becomes. -/
theorem brelse_unlinks_bunpin_keeps_table (st : BCache) (i : Nat)
    (hr : (st.bufs i).refcnt = 1)
    (hone : ∀ j, i ∈ st.table j → j = (st.bufs i).blockno % NBUCKET)
    (hcount : (st.table ((st.bufs i).blockno % NBUCKET)).count i ≤ 1) :
    (∀ j, i ∉ (brelse i st).table j) ∧
    (∀ j st2, (bunpin j st2).table = st2.table) := by
  constructor
  · intro j
    unfold brelse
    dsimp only [setBuf]
    rw [if_pos (show (st.bufs i).refcnt - 1 = 0 by omega)]
    dsimp only
    by_cases hj : j = (st.bufs i).blockno % NBUCKET
    · rw [if_pos hj, hj]
      exact not_mem_removeFirst i _ hcount
    · rw [if_neg hj]
      intro hmem
      exact hj (hone j hmem)
  · intro j st2
    rfl

/-- Witness for the amended C3 theorem at the concrete state where
slot zero holds block 5 with refcnt one on the bucket 5 list. -/
theorem brelse_unlinks_bunpin_keeps_table_witness :
    (c3St1.bufs 0).refcnt = 1 ∧
    0 ∉ (brelse 0 c3St1).table 5 ∧
    (bunpin 0 (brelse 0 c3St1)).table = (brelse 0 c3St1).table := by
  have htab : ∀ j, c3St1.table j = if j = 5 % NBUCKET then [0] else [] := fun j => rfl
  have hone : ∀ j, 0 ∈ c3St1.table j → j = (c3St1.bufs 0).blockno % NBUCKET := by
    intro j hj
    rw [htab] at hj
    by_cases h5 : j = 5 % NBUCKET
    · exact h5
    · rw [if_neg h5] at hj
      exact absurd hj (List.not_mem_nil 0)
  obtain ⟨ha, hb⟩ := brelse_unlinks_bunpin_keeps_table c3St1 0 rfl hone (by decide)
  exact ⟨rfl, ha 5, hb 0 (brelse 0 c3St1)⟩

/-- C6 amended: bwrite and brelse invoked without holding the slot
sleep lock fail fatally with their panics and do not proceed, and
bwrite with the lock held performs the device write of the payload; the
validity-filling step of bread, by contrast, performs no holder check
at all, so its behavior is the same whatever the holder flag is. -/
theorem bwrite_brelse_lock_discipline :
    (∀ disk b, bwriteM false disk b = .error msgBwrite) ∧
    (∀ i st, brelseM false i st = .error msgBrelse) ∧
    (∀ disk b, ∃ d2, bwriteM true disk b = .ok d2 ∧ d2 b.dev b.blockno = b.data) ∧
    (∀ i st, brelseM true i st = .ok (brelse i st)) ∧
    (∀ h1 h2 disk b, ensureValidM h1 disk b = ensureValidM h2 disk b) :=
  ⟨fun _ _ => rfl, fun _ _ => rfl,
   fun disk b => ⟨_, rfl, by simp⟩,
   fun _ _ => rfl, fun _ _ _ _ => rfl⟩

/-- C6 counterexample: the validity-filling read step of bread, invoked
on an invalid buffer with the exclusive lock not held, is not a fatal
error: it proceeds, performs the device read into the payload and
marks the buffer valid. -/
theorem bread_fill_no_lock_check :
    ensureValidM false (fun _ _ => 7)
      { dev := 2, blockno := 3, valid := false, refcnt := 1, timestamp := 0, data := 0 } =
    .ok ({ dev := 2, blockno := 3, valid := true, refcnt := 1, timestamp := 0, data := 7 },
      true) := rfl

/-- C8: the admission scan never returns a slot whose refcnt is
positive; in particular, after bpin on any slot (which increments its
refcnt), the scan never selects that slot as the victim, whatever its
timestamp. -/
theorem pinned_never_victim :
    (∀ t st i, 0 < (st.bufs i).refcnt → victimScan t st ≠ some i) ∧
    (∀ t st i, victimScan t (bpin i st) ≠ some i) := by
  constructor
  · intro t st i hpos hv
    obtain ⟨-, h0⟩ := victimScan_refcnt t st i hv
    omega
  · intro t st i hv
    obtain ⟨-, h0⟩ := victimScan_refcnt t (bpin i st) i hv
    simp [bpin, setBuf] at h0

/-- Witness for C8 at the pool whose only slot is held. -/
theorem pinned_never_victim_witness :
    0 < (fullSt.bufs 0).refcnt ∧ victimScan 7 fullSt ≠ some 0 :=
  ⟨by decide, pinned_never_victim.1 7 fullSt 0 (by decide)⟩

/-- C10: when the slot with the minimal timestamp among refcnt-zero
slots is not unique, the scan returns the largest such index, because
the comparison is non-strict and a later equal candidate overwrites the
earlier one; in particular the earlier tied slot i is not chosen. -/
theorem victim_tiebreak_last_index (t : Nat) (st : BCache) (i j : Nat)
    (hij : i < j) (hj : j < st.nbuf)
    (hri : (st.bufs i).refcnt = 0) (hrj : (st.bufs j).refcnt = 0)
    (heq : (st.bufs i).timestamp = (st.bufs j).timestamp)
    (ht : (st.bufs j).timestamp ≤ t)
    (hmin : ∀ m, m < st.nbuf → (st.bufs m).refcnt = 0 →
      (st.bufs j).timestamp ≤ (st.bufs m).timestamp)
    (hlast : ∀ m, j < m → m < st.nbuf → (st.bufs m).refcnt = 0 →
      (st.bufs j).timestamp < (st.bufs m).timestamp) :
    victimScan t st = some j ∧ victimScan t st ≠ some i := by
  have h := victimScan_eq_of t st j hj hrj ht hmin hlast
  refine ⟨h, ?_⟩
  rw [h]
  intro hcon
  simp only [Option.some.injEq] at hcon
  omega

/-- Witness for C10 on the two-slot pool with equal timestamps: the
victim is slot 1, the larger index, not slot 0. -/
theorem victim_tiebreak_last_index_witness :
    (tieSt.bufs 0).refcnt = 0 ∧ (tieSt.bufs 1).refcnt = 0 ∧
    (tieSt.bufs 0).timestamp = (tieSt.bufs 1).timestamp ∧
    victimScan 5 tieSt = some 1 ∧ victimScan 5 tieSt ≠ some 0 := by
  have hn : tieSt.nbuf = 2 := rfl
  have h := victim_tiebreak_last_index 5 tieSt 0 1 (by decide) (by rw [hn]; omega)
    (by decide) (by decide) (by decide) (by decide)
    (fun m _ _ => Nat.zero_le _)
    (fun m h1 h2 _ => by rw [hn] at h2; omega)
  exact ⟨by decide, by decide, by decide, h.1, h.2⟩

/-- C4: the admission scan selects a slot with refcnt zero whose
timestamp is minimal among all qualifying slots; consequently, after N
acquire and release pairs on the N+1 distinct blocks 0..N at strictly
increasing clock values, the admission of block N misses, picks slot
N-1 as the victim, and that slot holds block 0, the block that was
least recently released (its timestamp is minimal over the pool). -/
theorem bget_lru_eviction (N : Nat) (hN : 1 ≤ N) :
    (∀ t st j, victimScan t st = some j →
      (st.bufs j).refcnt = 0 ∧
      ∀ i, i < st.nbuf → (st.bufs i).refcnt = 0 → (st.bufs i).timestamp ≤ t →
        (st.bufs j).timestamp ≤ (st.bufs i).timestamp) ∧
    bgetLookup 0 N (N + 1) (runPairs N N) = none ∧
    victimScan (N + 1) (runPairs N N) = some (N - 1) ∧
    ((runPairs N N).bufs (N - 1)).blockno = 0 ∧
    (∀ m, m < N → ((runPairs N N).bufs (N - 1)).timestamp ≤ ((runPairs N N).bufs m).timestamp) ∧
    (∃ st2, bget 0 N (N + 1) (runPairs N N) = .ok (st2, N - 1)) := by
  have hrun : runPairs N N = pairState N N := runPairs_eq N N (le_refl N)
  have hvb : (pairState N N).bufs (N - 1) =
      { dev := 0, blockno := 0, valid := false, refcnt := 0, timestamp := 1, data := 0 } := by
    rw [pairState_bufs, if_pos (by omega)]
    have e1 : N - 1 - (N - 1) = 0 := by omega
    have e2 : N - (N - 1) = 1 := by omega
    rw [e1, e2]
  have hlook : bgetLookup 0 N (N + 1) (pairState N N) = none := rfl
  have hvict : victimScan (N + 1) (pairState N N) = some (N - 1) := by
    apply victimScan_eq_of
    · show N - 1 < (pairState N N).nbuf
      have : (pairState N N).nbuf = N := rfl
      omega
    · rw [hvb]
    · rw [hvb]
      show 1 ≤ N + 1
      omega
    · intro m hm _
      rw [hvb]
      have hmN : m < N := hm
      rw [pairState_bufs, if_pos (by omega)]
      show 1 ≤ N - m
      omega
    · intro m h1 h2 _
      have hmN : m < N := h2
      have : N - 1 < m := h1
      omega
  refine ⟨?_, ?_, ?_, ?_, ?_, ?_⟩
  · intro t st j h
    simp only [victimScan] at h
    obtain ⟨-, -, -, h4⟩ := victimAux_spec t st.bufs st.nbuf
    obtain ⟨hj, h0, hts, -⟩ := h4 j h
    refine ⟨h0, ?_⟩
    intro i hi hri hti
    obtain ⟨-, h2, -, -⟩ := victimAux_spec t st.bufs st.nbuf
    rw [hts]
    exact h2 i hi hri hti
  · rw [hrun]
    exact hlook
  · rw [hrun]
    exact hvict
  · rw [hrun, hvb]
  · intro m hm
    rw [hrun, hvb]
    rw [pairState_bufs, if_pos (by omega)]
    show 1 ≤ N - m
    omega
  · rw [hrun]
    simp only [bget, bgetAdmit, hlook, hvict]
    exact ⟨_, rfl⟩

/-- Witness for C4 at pool size three: after pairs on blocks 0, 1, 2
the admission of block 3 selects slot 2, which holds block 0. -/
theorem bget_lru_eviction_witness :
    1 ≤ 3 ∧ victimScan 4 (runPairs 3 3) = some 2 ∧
    ((runPairs 3 3).bufs 2).blockno = 0 ∧
    ((runPairs 3 3).bufs 2).timestamp ≤ ((runPairs 3 3).bufs 0).timestamp :=
  ⟨by decide, (bget_lru_eviction 3 (by decide)).2.2.1,
   (bget_lru_eviction 3 (by decide)).2.2.2.1,
   (bget_lru_eviction 3 (by decide)).2.2.2.2.1 0 (by decide)⟩

/-- C5: when the fast path misses and no slot has refcnt zero, bget
fails with the no-buffers panic instead of returning a buffer; its lock
trace shows the pool lock released before the panic, and no spinlock is
held at the end of the trace. -/
theorem bget_exhaustion_clean_abort (dev blockno t : Nat) (st : BCache)
    (hmiss : bgetLookup dev blockno t st = none)
    (hfull : ∀ i, i < st.nbuf → (st.bufs i).refcnt ≠ 0) :
    bget dev blockno t st = .error msgNoBuf ∧
    bgetTrace dev blockno t st =
      [.acqB (blockno % NBUCKET), .relB (blockno % NBUCKET), .acqPool, .relPool,
       .panicEv msgNoBuf] ∧
    heldAfter (bgetTrace dev blockno t st) = [] := by
  have hv : victimScan t st = none := victimScan_none_of_full t st hfull
  refine ⟨?_, ?_, ?_⟩
  · simp only [bget, bgetAdmit, hmiss, hv]
  · simp only [bgetTrace, hmiss, hv]
  · simp only [bgetTrace, hmiss, hv]
    simp [heldAfter, heldStep, removeFirst]

/-- Witness for C5 on the fully held pool of size one. -/
theorem bget_exhaustion_clean_abort_witness :
    bgetLookup 9 4 3 fullSt = none ∧
    (∀ i, i < fullSt.nbuf → (fullSt.bufs i).refcnt ≠ 0) ∧
    bget 9 4 3 fullSt = .error msgNoBuf ∧
    heldAfter (bgetTrace 9 4 3 fullSt) = [] := by
  have h1 : bgetLookup 9 4 3 fullSt = none := rfl
  have h2 : ∀ i, i < fullSt.nbuf → (fullSt.bufs i).refcnt ≠ 0 := fun i _ => Nat.one_ne_zero
  obtain ⟨c1, -, c3⟩ := bget_exhaustion_clean_abort 9 4 3 fullSt h1 h2
  exact ⟨h1, h2, c1, c3⟩

/-- C7: when bget returns slot i, bread on the same arguments returns
slot i valid; the device read happens exactly when the slot was invalid
after bget, in which case the payload is filled from the disk at the
slot identity; when the slot was already valid, no device read happens
and the state is unchanged from the bget state. -/
theorem bread_ensures_valid (dev blockno t : Nat) (disk : Nat → Nat → Nat)
    (st st1 : BCache) (i : Nat) (hget : bget dev blockno t st = .ok (st1, i)) :
    ∃ st2 io, bread dev blockno t disk st = .ok (st2, i, io) ∧
      (st2.bufs i).valid = true ∧
      (io = true ↔ (st1.bufs i).valid = false) ∧
      (io = true → (st2.bufs i).data = disk (st1.bufs i).dev (st1.bufs i).blockno) ∧
      ((st1.bufs i).valid = true → st2 = st1 ∧ io = false) := by
  cases hv : (st1.bufs i).valid
  · refine ⟨setBuf st1 i
      { st1.bufs i with data := disk (st1.bufs i).dev (st1.bufs i).blockno, valid := true },
      true, ?_, ?_, ?_, ?_, ?_⟩
    · simp only [bread, hget, ensureValidM, hv, Bool.false_eq_true, if_false]
    · simp [setBuf]
    · simp [hv]
    · intro _
      simp [setBuf]
    · intro hcon
      exact absurd hcon (by simp)
  · refine ⟨st1, false, ?_, ?_, ?_, ?_, ?_⟩
    · simp only [bread, hget, ensureValidM, hv, if_true, setBuf_self]
    · exact hv
    · simp [hv]
    · intro hcon
      exact absurd hcon (by simp)
    · intro _
      exact ⟨rfl, rfl⟩

/-- Witness for C7: a fresh admission of block 1 is invalid, so bread
performs the device read and returns the slot valid. -/
theorem bread_ensures_valid_witness :
    bget 0 1 2 (binit 1) = .ok ((bgetS 0 1 2 (binit 1)).1, 0) ∧
    (∃ st2 io, bread 0 1 2 (fun _ _ => 9) (binit 1) = .ok (st2, 0, io) ∧
      (st2.bufs 0).valid = true ∧
      (io = true ↔ (((bgetS 0 1 2 (binit 1)).1).bufs 0).valid = false) ∧
      (io = true → (st2.bufs 0).data =
        (fun _ _ => 9) (((bgetS 0 1 2 (binit 1)).1).bufs 0).dev
          (((bgetS 0 1 2 (binit 1)).1).bufs 0).blockno) ∧
      ((((bgetS 0 1 2 (binit 1)).1).bufs 0).valid = true →
        st2 = (bgetS 0 1 2 (binit 1)).1 ∧ io = false)) :=
  ⟨rfl, bread_ensures_valid 0 1 2 (fun _ _ => 9) (binit 1) ((bgetS 0 1 2 (binit 1)).1) 0 rfl⟩

/-- C9: at every point where bget performs the blocking acquisition of
the slot sleep lock, the set of spinlocks held (bucket locks and the
pool lock) is empty: every path releases them all before acquiresleep. -/
theorem sleep_acquired_without_spinlocks (dev blockno t : Nat) (st : BCache) (k s : Nat)
    (h : (bgetTrace dev blockno t st).get? k = some (.acqSleep s)) :
    heldAfter ((bgetTrace dev blockno t st).take k) = [] := by
  cases hl : bgetLookup dev blockno t st with
  | some r =>
      obtain ⟨st1, i⟩ := r
      simp only [bgetTrace, hl] at h ⊢
      rcases k with _|_|_|k
      · simp at h
      · simp at h
      · simp [heldAfter, heldStep, removeFirst, List.take]
      · simp at h
  | none =>
      cases hv : victimScan t st with
      | none =>
          simp only [bgetTrace, hl, hv] at h
          rcases k with _|_|_|_|_|k <;> simp at h
      | some lru =>
          by_cases hob : (st.bufs lru).blockno % NBUCKET ≠ blockno % NBUCKET
          · simp only [bgetTrace, hl, hv, if_pos hob, List.cons_append, List.nil_append,
              List.append_nil] at h ⊢
            rcases k with _|_|_|_|_|_|_|_|_|k
            · simp at h
            · simp at h
            · simp at h
            · simp at h
            · simp at h
            · simp at h
            · simp at h
            · simp at h
            · simp [heldAfter, heldStep, removeFirst, List.take]
            · simp at h
          · rw [not_not] at hob
            simp only [bgetTrace, hl, hv, hob, ne_eq, not_true_eq_false, if_false,
              List.cons_append, List.nil_append, List.append_nil] at h ⊢
            rcases k with _|_|_|_|_|_|_|k
            · simp at h
            · simp at h
            · simp at h
            · simp at h
            · simp at h
            · simp at h
            · simp [heldAfter, heldStep, removeFirst, List.take]
            · simp at h

/-- Witness for C9 on the cross-shard admission trace of block 1 from
the initial one-slot pool: the acquiresleep event sits at position 8
and no spinlock is held there. -/
theorem sleep_acquired_without_spinlocks_witness :
    (bgetTrace 0 1 5 (binit 1)).get? 8 = some (.acqSleep 0) ∧
    heldAfter ((bgetTrace 0 1 5 (binit 1)).take 8) = [] :=
  ⟨by decide, sleep_acquired_without_spinlocks 0 1 5 (binit 1) 8 0 (by decide)⟩

/-- C2 counterexample: admitting block 1 (target shard 1) when the
victim slot last held block 0 (old shard 0): the trace acquires the
bucket 0 lock at position 4 while the bucket 1 lock (a higher index) is
already held, so the locks are not taken in ascending numeric order. -/
theorem bget_admit_lock_order_not_ascending :
    (bgetTrace 0 1 5 (binit 1)).get? 4 = some (.acqB 0) ∧
    SpinL.bucket 1 ∈ heldAfter ((bgetTrace 0 1 5 (binit 1)).take 4) ∧
    heldAfter ((bgetTrace 0 1 5 (binit 1)).take 4) = [SpinL.bucket 1, SpinL.pool] :=
  ⟨by decide, by decide, by decide⟩

/-- C2 amended: whenever bget acquires a shard lock while another shard
lock is already held, the held one is the target shard of the block
being admitted, the pool lock is also held, and the lock being acquired
is the victim old shard: the fixed order is target shard first, then
old shard, under the pool lock, not an ascending numeric order. -/
theorem bget_admit_lock_order_target_first (dev blockno t : Nat) (st : BCache) (k b : Nat)
    (h : (bgetTrace dev blockno t st).get? k = some (.acqB b))
    (hheld : ∃ b2, SpinL.bucket b2 ∈ heldAfter ((bgetTrace dev blockno t st).take k)) :
    heldAfter ((bgetTrace dev blockno t st).take k) =
      [SpinL.bucket (blockno % NBUCKET), SpinL.pool] ∧
    ∃ lru, victimScan t st = some lru ∧ b = (st.bufs lru).blockno % NBUCKET ∧
      b ≠ blockno % NBUCKET := by
  obtain ⟨b2, hb2⟩ := hheld
  cases hl : bgetLookup dev blockno t st with
  | some r =>
      obtain ⟨st1, i⟩ := r
      simp only [bgetTrace, hl] at h hb2
      rcases k with _|_|_|k
      · simp [heldAfter] at hb2
      · simp at h
      · simp at h
      · simp at h
  | none =>
      cases hv : victimScan t st with
      | none =>
          simp only [bgetTrace, hl, hv] at h hb2
          rcases k with _|_|_|_|_|k
          · simp [heldAfter] at hb2
          · simp at h
          · simp at h
          · simp at h
          · simp at h
          · simp at h
      | some lru =>
          by_cases hob : (st.bufs lru).blockno % NBUCKET ≠ blockno % NBUCKET
          · simp only [bgetTrace, hl, hv, if_pos hob, List.cons_append, List.nil_append,
              List.append_nil] at h hb2 ⊢
            rcases k with _|_|_|_|_|_|_|_|_|k
            · simp [heldAfter] at hb2
            · simp at h
            · simp at h
            · simp [heldAfter, heldStep, removeFirst, List.take] at hb2
            · simp only [List.get?] at h
              simp only [Option.some.injEq, Ev.acqB.injEq] at h
              refine ⟨by simp [heldAfter, heldStep, removeFirst, List.take], lru, rfl, h.symm, ?_⟩
              rw [← h]
              exact hob
            · simp at h
            · simp at h
            · simp at h
            · simp at h
            · simp at h
          · rw [not_not] at hob
            simp only [bgetTrace, hl, hv, hob, ne_eq, not_true_eq_false, if_false,
              List.cons_append, List.nil_append, List.append_nil] at h hb2
            rcases k with _|_|_|_|_|_|_|k
            · simp [heldAfter] at hb2
            · simp at h
            · simp at h
            · simp [heldAfter, heldStep, removeFirst, List.take] at hb2
            · simp at h
            · simp at h
            · simp at h
            · simp at h

/-- Witness for the amended C2 theorem at the concrete cross-shard
admission of block 1 with a victim from shard 0. -/
theorem bget_admit_lock_order_target_first_witness :
    heldAfter ((bgetTrace 0 1 5 (binit 1)).take 4) =
      [SpinL.bucket (1 % NBUCKET), SpinL.pool] ∧
    ∃ lru, victimScan 5 (binit 1) = some lru ∧
      0 = ((binit 1).bufs lru).blockno % NBUCKET ∧ 0 ≠ 1 % NBUCKET :=
  bget_admit_lock_order_target_first 0 1 5 (binit 1) 4 0 (by decide) ⟨1, by decide⟩
